import Mathlib

/-!
Shallow embedding of the Post mutation routes of
`routes/api/posts.js` (the posts router of the DevConnector backend).

The document store is modelled as a `List Post`; each Express route
handler becomes a pure function from the caller identity, the request
parameters and the store to a response (`Except ApiError β`) paired with
the store after the request.  JavaScript array operations are modelled
by their Lean counterparts: `unshift` is list cons, `map`/`filter` are
`List.map`/`List.filter`, `indexOf` is `jsIndexOf` (first index or -1),
and `splice(i, 1)` is `spliceOne` with the JS negative-index clamping.
-/

/-- A like entry embedded in a post: `{ user: req.user.id }`. -/
structure Like where
  user : String
  deriving DecidableEq, Repr

/-- A comment embedded in a post: the fields built in the
`POST /comment/:id` handler plus the Mongo-assigned `id`. -/
structure Comment where
  id : String
  user : String
  name : String
  avatar : String
  text : String
  deriving DecidableEq, Repr

/-- A post document: the fields built in the `POST /` handler plus the
Mongo-assigned `id` and the schema-default `date` (creation time). -/
structure Post where
  id : String
  user : String
  name : String
  avatar : String
  text : String
  likes : List Like
  comments : List Comment
  date : Nat
  deriving DecidableEq, Repr

/-- The user document consulted via `User.findById(req.user.id)`;
`id` is the authenticated caller identity `req.user.id`. -/
structure User where
  id : String
  name : String
  avatar : String
  deriving DecidableEq, Repr

/-- The non-200 responses produced by the posts router. -/
inductive ApiError where
  | validationError   -- 400, express-validator errors array
  | notFound          -- 400, 'Post Not Found'
  | commentNotFound   -- 400, 'Comment Does Not Exist'
  | alreadyLiked      -- 400, 'Post Already Liked'
  | notYetLiked       -- 400, 'Post has not yet been liked'
  | notAuthorized     -- 401, 'User Not Authorized'
  | serverError       -- 500, 'Server Error'
  deriving DecidableEq, Repr

/-- The HTTP status each error response is sent with. -/
def ApiError.status : ApiError → Nat
  | .validationError => 400
  | .notFound => 400
  | .commentNotFound => 400
  | .alreadyLiked => 400
  | .notYetLiked => 400
  | .notAuthorized => 401
  | .serverError => 500

/-- A post id as received in `req.params.id`: either it casts to a Mongo
ObjectId or it is malformed (the cast throws with `err.kind ==
'ObjectId'`).  Whether the cast succeeds depends only on the raw id, not
on the store, so the model carries the distinction in the id itself. -/
inductive ReqId where
  | wellFormed (s : String)
  | malformed (s : String)
  deriving DecidableEq, Repr

/-- Result of `Post.findById(id)` as observed by the handlers: a found
document, a `null` (missing), or a thrown cast error for a malformed
id. -/
inductive LookupResult where
  | found (p : Post)
  | missing
  | castError
  deriving DecidableEq, Repr

/-- `Post.findById(id)`: a malformed id throws the ObjectId cast error;
otherwise the document whose `id` matches is returned, or `null`. -/
def findById (db : List Post) : ReqId → LookupResult
  | .malformed _ => .castError
  | .wellFormed s =>
    match db.find? (fun p => p.id == s) with
    | some p => .found p
    | none => .missing

/-- `post.save()`: the store with the document of this id replaced by
the updated document. -/
def updatePost (db : List Post) (p : Post) : List Post :=
  db.map (fun q => if q.id == p.id then p else q)

/-- JavaScript `Array.prototype.indexOf`: index of the first occurrence,
or -1. -/
def jsIndexOf (xs : List String) (x : String) : Int :=
  match xs with
  | [] => -1
  | y :: ys =>
    if y == x then 0
    else
      let r := jsIndexOf ys x
      if r < 0 then -1 else r + 1

/-- JavaScript `Array.prototype.splice(i, 1)`: a negative start counts
from the end (clamped at 0); a start at or past the end removes
nothing. -/
def spliceOne (xs : List α) (i : Int) : List α :=
  let start : Int := if i < 0 then max ((xs.length : Int) + i) 0 else i
  xs.eraseIdx start.toNat

/-- `POST api/posts` (create a post).  `newId` and `now` stand for the
Mongo-assigned id and schema-default date of the new document. -/
def createPost (user : User) (text : String) (newId : String) (now : Nat)
    (db : List Post) : Except ApiError Post × List Post :=
  if text.isEmpty then
    (.error .validationError, db)
  else
    let newPost : Post :=
      { id := newId, user := user.id, name := user.name,
        avatar := user.avatar, text := text, likes := [], comments := [],
        date := now }
    (.ok newPost, newPost :: db)

/-- Insertion order used by `Post.find().sort({ date: -1 })`:
later (larger) creation date first. -/
def dateDesc (a b : Post) : Prop := b.date ≤ a.date

instance : DecidableRel dateDesc := fun a b => Nat.decLe b.date a.date

instance : IsTotal Post dateDesc := ⟨fun a b => Nat.le_total b.date a.date⟩

instance : IsTrans Post dateDesc :=
  ⟨fun _ _ _ h h2 => Nat.le_trans h2 h⟩

/-- `GET api/posts` (get all posts): `Post.find().sort({ date: -1 })`. -/
def getPosts (db : List Post) : Except ApiError (List Post) × List Post :=
  (.ok (db.insertionSort dateDesc), db)

/-- `GET api/posts/:id` (get one post). -/
def getPost (db : List Post) (i : ReqId) : Except ApiError Post × List Post :=
  match findById db i with
  | .found p => (.ok p, db)
  | .missing => (.error .notFound, db)
  | .castError => (.error .notFound, db)

/-- `DELETE api/posts/:id` (delete a post).  `post.remove()` deletes the
found document from the store. -/
def deletePost (callerId : String) (i : ReqId) (db : List Post) :
    Except ApiError String × List Post :=
  match findById db i with
  | .castError => (.error .notFound, db)
  | .missing => (.error .notFound, db)
  | .found post =>
    if post.user == callerId then
      (.ok "Post Removed", db.filter (fun q => !(q.id == post.id)))
    else
      (.error .notAuthorized, db)

/-- `PUT api/posts/like/:id` (like a post). -/
def likePost (callerId : String) (i : ReqId) (db : List Post) :
    Except ApiError (List Like) × List Post :=
  match findById db i with
  | .castError => (.error .notFound, db)
  | .missing => (.error .notFound, db)
  | .found post =>
    if (post.likes.filter (fun l => l.user == callerId)).length > 0 then
      (.error .alreadyLiked, db)
    else
      let post1 : Post := { post with likes := { user := callerId } :: post.likes }
      (.ok post1.likes, updatePost db post1)

/-- `PUT api/posts/unlike/:id` (unlike a post): the remove index is the
first position whose like's user is the caller, and `splice` drops it. -/
def unlikePost (callerId : String) (i : ReqId) (db : List Post) :
    Except ApiError String × List Post :=
  match findById db i with
  | .castError => (.error .notFound, db)
  | .missing => (.error .notFound, db)
  | .found post =>
    if (post.likes.filter (fun l => l.user == callerId)).length == 0 then
      (.error .notYetLiked, db)
    else
      let removeIndex := jsIndexOf (post.likes.map (fun l => l.user)) callerId
      let post1 : Post := { post with likes := spliceOne post.likes removeIndex }
      (.ok "Unlike Post", updatePost db post1)

/-- `POST api/posts/comment/:id` (comment on a post).  Validation of the
text runs before the post lookup; `newCommentId` stands for the
Mongo-assigned id of the embedded comment. -/
def addComment (user : User) (text : String) (i : ReqId)
    (newCommentId : String) (db : List Post) :
    Except ApiError (List Comment) × List Post :=
  if text.isEmpty then
    (.error .validationError, db)
  else
    match findById db i with
    | .castError => (.error .notFound, db)
    | .missing => (.error .notFound, db)
    | .found post =>
      let newComment : Comment :=
        { id := newCommentId, user := user.id, name := user.name,
          avatar := user.avatar, text := text }
      let post1 : Post := { post with comments := newComment :: post.comments }
      (.ok post1.comments, updatePost db post1)

/-- `DELETE api/posts/comment/:id/:comment_id` (delete a comment): the
comment is located by its id and its author checked, but the remove
index is then recomputed by scanning the comments' authors for the
caller. -/
def deleteComment (callerId : String) (i : ReqId) (commentId : String)
    (db : List Post) : Except ApiError String × List Post :=
  match findById db i with
  | .castError => (.error .notFound, db)
  | .missing => (.error .notFound, db)
  | .found post =>
    match post.comments.find? (fun c => c.id == commentId) with
    | none => (.error .commentNotFound, db)
    | some comment =>
      if comment.user == callerId then
        let removeIndex :=
          jsIndexOf (post.comments.map (fun c => c.user)) callerId
        let post1 : Post :=
          { post with comments := spliceOne post.comments removeIndex }
        (.ok "Comment Deleted", updatePost db post1)
      else
        (.error .notAuthorized, db)

/-- The uniqueness invariant of the data model: each user occurs at most
once among a post's likes. -/
def likeInv (p : Post) : Prop := (p.likes.map Like.user).Nodup

instance (p : Post) : Decidable (likeInv p) :=
  inferInstanceAs (Decidable (List.Nodup _))

/-! ## Concrete documents used to exercise the operations -/

/-- A concrete user. -/
def demoUser : User := { id := "u", name := "N", avatar := "Av" }

/-- A concrete comment with id `a` authored by user `u`. -/
def cmtA : Comment :=
  { id := "a", user := "u", name := "N", avatar := "Av", text := "first" }

/-- A concrete comment with id `b` authored by user `u`. -/
def cmtB : Comment :=
  { id := "b", user := "u", name := "N", avatar := "Av", text := "second" }

/-- A concrete post with two comments by the same author and no likes. -/
def pDemo : Post :=
  { id := "p1", user := "u", name := "N", avatar := "Av", text := "hello",
    likes := [], comments := [cmtA, cmtB], date := 5 }

/-- A concrete post liked by users `u` and `w`. -/
def pLiked : Post :=
  { id := "p2", user := "u", name := "N", avatar := "Av", text := "hi",
    likes := [{ user := "u" }, { user := "w" }], comments := [], date := 7 }

/-! ## Helper lemmas -/

lemma spliceOne_natCast (xs : List α) (k : Nat) :
    spliceOne xs (k : Int) = xs.eraseIdx k := by
  unfold spliceOne
  rw [if_neg (by omega)]
  simp

lemma spliceOne_sublist (xs : List α) (i : Int) :
    List.Sublist (spliceOne xs i) xs := by
  unfold spliceOne
  exact List.eraseIdx_sublist xs _

lemma findById_found_iff (db : List Post) (s : String) (post : Post) :
    findById db (.wellFormed s) = .found post ↔
      db.find? (fun p => p.id == s) = some post := by
  unfold findById
  cases hfind : db.find? (fun p => p.id == s) with
  | none => simp [hfind]
  | some p => simp [hfind]

lemma findById_found_mem {db : List Post} {s : String} {post : Post}
    (h : findById db (.wellFormed s) = .found post) :
    post ∈ db ∧ post.id = s := by
  rw [findById_found_iff] at h
  exact ⟨List.mem_of_find?_eq_some h, by simpa using List.find?_some h⟩

lemma find?_updatePost (s : String) (post p1 : Post) (hid : p1.id = post.id) :
    ∀ db : List Post, db.find? (fun p => p.id == s) = some post →
      (updatePost db p1).find? (fun p => p.id == s) = some p1 := by
  intro db
  induction db with
  | nil => intro h; simp at h
  | cons q qs ih =>
    intro h
    have hs : post.id = s := by simpa using List.find?_some h
    by_cases hq : q.id = s
    · have hqpost : q = post := by
        rw [List.find?_cons_of_pos _ (by simpa using hq)] at h
        exact Option.some.inj h
      subst hqpost
      simp only [updatePost, List.map_cons]
      rw [if_pos (by simp [hid])]
      exact List.find?_cons_of_pos _ (by simp [hid, hs])
    · have h2 : qs.find? (fun p => p.id == s) = some post := by
        rwa [List.find?_cons_of_neg _ (by simpa using hq)] at h
      have hrec := ih h2
      simp only [updatePost, List.map_cons] at hrec ⊢
      rw [if_neg (by simp only [hid, hs, beq_iff_eq]; exact hq)]
      rw [List.find?_cons_of_neg _ (by simpa using hq)]
      exact hrec

lemma jsIndexOf_spliceOne_of_mem {α : Type} (f : α → String) (c : String) :
    ∀ cs : List α, (∃ a ∈ cs, f a = c) →
      ∃ k : Nat, jsIndexOf (cs.map f) c = (k : Int) ∧
        spliceOne cs (jsIndexOf (cs.map f) c) = cs.eraseIdx k ∧
        ∃ hk : k < cs.length, f (cs.get ⟨k, hk⟩) = c := by
  intro cs
  induction cs with
  | nil => rintro ⟨a, ha, -⟩; simp at ha
  | cons b bs ih =>
    rintro ⟨a, ha, hfa⟩
    by_cases hb : f b = c
    · refine ⟨0, ?_, ?_, ⟨by simp, by simpa using hb⟩⟩
      · simp [jsIndexOf, hb]
      · have h0 : jsIndexOf ((b :: bs).map f) c = ((0 : Nat) : Int) := by
          simp [jsIndexOf, hb]
        rw [h0, spliceOne_natCast]
    · have hmem : ∃ a ∈ bs, f a = c := by
        rcases List.mem_cons.mp ha with h1 | h2
        · exact absurd (h1 ▸ hfa) hb
        · exact ⟨a, h2, hfa⟩
      obtain ⟨k, hk1, hk2, hk3, hk4⟩ := ih hmem
      have hstep : jsIndexOf ((b :: bs).map f) c = ((k + 1 : Nat) : Int) := by
        simp only [List.map_cons, jsIndexOf]
        rw [if_neg (by simp [hb]), hk1, if_neg (by omega)]
        push_cast
        ring
      refine ⟨k + 1, hstep, ?_, ⟨by simpa using Nat.succ_lt_succ hk3, by simpa using hk4⟩⟩
      rw [hstep, spliceOne_natCast, List.eraseIdx_cons_succ]

lemma spliceOne_jsIndexOf_eq_filter (c : String) :
    ∀ likes : List Like, (likes.map Like.user).Nodup →
      c ∈ likes.map Like.user →
      spliceOne likes (jsIndexOf (likes.map Like.user) c) =
        likes.filter (fun l => !(l.user == c)) := by
  intro likes
  induction likes with
  | nil => intro _ h; simp at h
  | cons l ls ih =>
    intro hnd hmem
    have hnd2 : (ls.map Like.user).Nodup ∧ l.user ∉ ls.map Like.user := by
      rw [List.map_cons, List.nodup_cons] at hnd
      exact ⟨hnd.2, hnd.1⟩
    by_cases hl : l.user = c
    · have hnotin : c ∉ ls.map Like.user := hl ▸ hnd2.2
      have hfilter : ls.filter (fun l2 => !(l2.user == c)) = ls := by
        rw [List.filter_eq_self]
        intro a ha
        simp only [Bool.not_eq_eq_eq_not, Bool.not_true, beq_eq_false_iff_ne, ne_eq]
        intro hcon
        exact hnotin (hcon ▸ List.mem_map_of_mem Like.user ha)
      have h0 : jsIndexOf ((l :: ls).map Like.user) c = ((0 : Nat) : Int) := by
        simp [jsIndexOf, hl]
      rw [h0, spliceOne_natCast, List.eraseIdx_cons_zero, List.filter_cons,
        if_neg (by simp [hl]), hfilter]
    · have hmem2 : c ∈ ls.map Like.user := by
        have hsplit : c = l.user ∨ ∃ a ∈ ls, a.user = c := by simpa using hmem
        rcases hsplit with h1 | h2
        · exact absurd h1.symm hl
        · simpa using h2
      have hex : ∃ a ∈ ls, Like.user a = c := by
        simpa using hmem2
      obtain ⟨k, hk1, hk2, -, -⟩ := jsIndexOf_spliceOne_of_mem Like.user c ls hex
      have hstep : jsIndexOf ((l :: ls).map Like.user) c = ((k + 1 : Nat) : Int) := by
        simp only [List.map_cons, jsIndexOf]
        rw [if_neg (by simp [hl]), hk1, if_neg (by omega)]
        push_cast
        ring
      rw [hstep, spliceOne_natCast, List.eraseIdx_cons_succ, List.filter_cons,
        if_pos (by simp [hl])]
      have hih := ih hnd2.1 hmem2
      rw [hk2] at hih
      rw [hih]

lemma findById_found_mem_any {db : List Post} {i : ReqId} {post : Post}
    (h : findById db i = .found post) : post ∈ db := by
  cases i with
  | malformed s => simp [findById] at h
  | wellFormed s => exact (findById_found_mem h).1

lemma likeInv_updatePost {db : List Post} {p1 : Post}
    (hinv : ∀ p ∈ db, likeInv p) (hp1 : likeInv p1) :
    ∀ q1 ∈ updatePost db p1, likeInv q1 := by
  intro q1 hq1
  unfold updatePost at hq1
  obtain ⟨q, hq, hq2⟩ := List.mem_map.mp hq1
  by_cases hc : (q.id == p1.id) = true
  · rw [if_pos hc] at hq2
    exact hq2 ▸ hp1
  · rw [if_neg hc] at hq2
    exact hq2 ▸ hinv q hq

/-! ## Claim theorems -/

/-- C9: the list operation returns all posts (a permutation of the
store), ordered by creation time descending, and leaves the store
unmodified. -/
theorem getPosts_returns_all_sorted_desc (db : List Post) :
    (getPosts db).2 = db ∧
    ∃ sorted : List Post, (getPosts db).1 = .ok sorted ∧
      List.Perm sorted db ∧
      List.Pairwise (fun a b => b.date ≤ a.date) sorted := by
  refine ⟨rfl, db.insertionSort dateDesc, rfl,
    List.perm_insertionSort dateDesc db, ?_⟩
  exact List.sorted_insertionSort dateDesc db

/-- C6: deleting a post whose author is not the caller returns the
authorization-denied signal with status 401 and leaves the store (hence
the post and all its contents) unchanged. -/
theorem deletePost_unauthorized_unchanged (db : List Post)
    (s callerId : String) (post : Post)
    (hfind : findById db (.wellFormed s) = .found post)
    (hne : post.user ≠ callerId) :
    deletePost callerId (.wellFormed s) db = (.error .notAuthorized, db) ∧
    ApiError.status .notAuthorized = 401 := by
  refine ⟨?_, rfl⟩
  unfold deletePost
  rw [hfind]
  dsimp only
  rw [if_neg (by simpa using hne)]

/-- C5: liking a post the caller already liked fails with the
duplicate-like signal (status 400) and leaves the store unchanged;
otherwise a like for the caller is prepended at the head of the like
sequence and the operation succeeds, returning the new like sequence. -/
theorem likePost_duplicate_or_prepends (db : List Post)
    (s callerId : String) (post : Post)
    (hfind : findById db (.wellFormed s) = .found post) :
    (0 < (post.likes.filter (fun l => l.user == callerId)).length →
      likePost callerId (.wellFormed s) db = (.error .alreadyLiked, db) ∧
      ApiError.status .alreadyLiked = 400) ∧
    ((post.likes.filter (fun l => l.user == callerId)).length = 0 →
      likePost callerId (.wellFormed s) db =
        (.ok ({ user := callerId } :: post.likes),
          updatePost db
            { post with likes := { user := callerId } :: post.likes })) := by
  constructor
  · intro hdup
    refine ⟨?_, rfl⟩
    unfold likePost
    rw [hfind]
    dsimp only
    rw [if_pos hdup]
  · intro hnone
    unfold likePost
    rw [hfind]
    dsimp only
    rw [if_neg (by omega)]

/-- C7: creating a post with empty text is rejected with a validation
error (status 400) and the collection is unchanged; with non-empty text
a new post snapshotting the caller's name and avatar is stored and
returned. -/
theorem createPost_empty_text_rejected (user : User) (text newId : String)
    (now : Nat) (db : List Post) :
    (text = "" →
      createPost user text newId now db = (.error .validationError, db) ∧
      ApiError.status .validationError = 400) ∧
    (text ≠ "" → ∃ p : Post,
      createPost user text newId now db = (.ok p, p :: db) ∧
      p.user = user.id ∧ p.name = user.name ∧ p.avatar = user.avatar ∧
      p.text = text ∧ p.likes = [] ∧ p.comments = []) := by
  constructor
  · intro h
    subst h
    exact ⟨rfl, rfl⟩
  · intro h
    unfold createPost
    rw [if_neg (by simpa [String.isEmpty_iff] using h)]
    exact ⟨_, rfl, rfl, rfl, rfl, rfl, rfl, rfl⟩

/-- C8: every operation that takes a post id, given a malformed id,
returns the not-found signal (status 400, not the 500 server error) and
leaves the store unchanged; for add-comment this concerns requests that
pass text validation, which runs before the lookup. -/
theorem malformed_id_yields_not_found (db : List Post)
    (s callerId text cid ncid : String) (user : User) (htext : text ≠ "") :
    getPost db (.malformed s) = (.error .notFound, db) ∧
    deletePost callerId (.malformed s) db = (.error .notFound, db) ∧
    likePost callerId (.malformed s) db = (.error .notFound, db) ∧
    unlikePost callerId (.malformed s) db = (.error .notFound, db) ∧
    addComment user text (.malformed s) ncid db = (.error .notFound, db) ∧
    deleteComment callerId (.malformed s) cid db = (.error .notFound, db) ∧
    ApiError.status .notFound = 400 ∧ ApiError.status .notFound ≠ 500 := by
  refine ⟨rfl, rfl, rfl, rfl, ?_, rfl, rfl, by decide⟩
  unfold addComment
  rw [if_neg (by simpa [String.isEmpty_iff] using htext)]
  rfl

/-- C4: under the at-most-one-like-per-user invariant, unliking a post
the caller has not liked fails with the not-liked signal and leaves the
store unchanged; otherwise it removes exactly the caller's like, leaving
every other user's like in place and in order. -/
theorem unlikePost_not_liked_or_removes_exactly_caller (db : List Post)
    (s callerId : String) (post : Post)
    (hfind : findById db (.wellFormed s) = .found post)
    (hinv : likeInv post) :
    ((post.likes.filter (fun l => l.user == callerId)).length = 0 →
      unlikePost callerId (.wellFormed s) db = (.error .notYetLiked, db) ∧
      ApiError.status .notYetLiked = 400) ∧
    ((post.likes.filter (fun l => l.user == callerId)).length ≠ 0 →
      unlikePost callerId (.wellFormed s) db =
        (.ok "Unlike Post",
          updatePost db
            { post with
              likes := post.likes.filter (fun l => !(l.user == callerId)) })) := by
  constructor
  · intro h0
    refine ⟨?_, rfl⟩
    unfold unlikePost
    rw [hfind]
    dsimp only
    rw [if_pos (by simpa using h0)]
  · intro hne
    unfold unlikePost
    rw [hfind]
    dsimp only
    rw [if_neg (by simpa using hne)]
    have hnil : post.likes.filter (fun l => l.user == callerId) ≠ [] := by
      intro hcon
      exact hne (by rw [hcon]; rfl)
    obtain ⟨l, hl⟩ := List.exists_mem_of_ne_nil _ hnil
    have hl2 := List.mem_filter.mp hl
    have hmem : callerId ∈ post.likes.map Like.user := by
      exact List.mem_map.mpr ⟨l, hl2.1, by simpa using hl2.2⟩
    have hkey :
        spliceOne post.likes
            (jsIndexOf (post.likes.map (fun l2 => l2.user)) callerId) =
          post.likes.filter (fun l2 => !(l2.user == callerId)) :=
      spliceOne_jsIndexOf_eq_filter callerId post.likes hinv hmem
    rw [hkey]

/-- C3: for a post satisfying the like-uniqueness invariant and a caller
who has not yet liked it, liking and then unliking succeeds and returns
the post (in particular its like sequence) to exactly its prior state. -/
theorem like_then_unlike_restores_likes (db : List Post)
    (s callerId : String) (post : Post)
    (hfind : findById db (.wellFormed s) = .found post)
    (hinv : likeInv post)
    (hnew : (post.likes.filter (fun l => l.user == callerId)).length = 0) :
    (unlikePost callerId (.wellFormed s)
        (likePost callerId (.wellFormed s) db).2).1 = .ok "Unlike Post" ∧
    findById (unlikePost callerId (.wellFormed s)
        (likePost callerId (.wellFormed s) db).2).2 (.wellFormed s) =
      .found post := by
  have hlike : likePost callerId (.wellFormed s) db =
      (.ok ({ user := callerId } :: post.likes),
        updatePost db { post with likes := { user := callerId } :: post.likes }) := by
    unfold likePost
    rw [hfind]
    dsimp only
    rw [if_neg (by omega)]
  have hfind1 : findById
      (updatePost db { post with likes := { user := callerId } :: post.likes })
      (.wellFormed s) =
        .found { post with likes := { user := callerId } :: post.likes } := by
    rw [findById_found_iff]
    exact find?_updatePost s post
      { post with likes := { user := callerId } :: post.likes } rfl db
      ((findById_found_iff db s post).mp hfind)
  have hunlike : unlikePost callerId (.wellFormed s)
      (updatePost db { post with likes := { user := callerId } :: post.likes }) =
        (.ok "Unlike Post",
          updatePost
            (updatePost db { post with likes := { user := callerId } :: post.likes })
            post) := by
    unfold unlikePost
    rw [hfind1]
    dsimp only
    rw [if_neg (by simp)]
    have hidx : jsIndexOf
        (({ post with likes := { user := callerId } :: post.likes} : Post).likes.map
          (fun l => l.user)) callerId = ((0 : Nat) : Int) := by
      simp [jsIndexOf]
    rw [hidx, spliceOne_natCast]
    rfl
  rw [hlike]
  dsimp only
  rw [hunlike]
  refine ⟨rfl, ?_⟩
  rw [findById_found_iff]
  exact find?_updatePost s { post with likes := { user := callerId } :: post.likes }
    post rfl _ ((findById_found_iff _ s _).mp hfind1)

/-- C2: if every post in the store has at most one like per user, each
of like, unlike, delete-comment and add-comment leaves a store in which
every post still has at most one like per user. -/
theorem mutations_preserve_like_uniqueness (db : List Post) (i : ReqId)
    (callerId text cid ncid : String) (user : User)
    (hinv : ∀ p ∈ db, likeInv p) :
    (∀ p1 ∈ (likePost callerId i db).2, likeInv p1) ∧
    (∀ p1 ∈ (unlikePost callerId i db).2, likeInv p1) ∧
    (∀ p1 ∈ (deleteComment callerId i cid db).2, likeInv p1) ∧
    (∀ p1 ∈ (addComment user text i ncid db).2, likeInv p1) := by
  refine ⟨?_, ?_, ?_, ?_⟩
  · cases hf : findById db i with
    | castError => unfold likePost; rw [hf]; dsimp only; exact hinv
    | missing => unfold likePost; rw [hf]; dsimp only; exact hinv
    | found post =>
      unfold likePost
      rw [hf]
      dsimp only
      by_cases hg : (post.likes.filter (fun l => l.user == callerId)).length > 0
      · rw [if_pos hg]; exact hinv
      · rw [if_neg hg]
        dsimp only
        refine likeInv_updatePost hinv ?_
        have hnotin : callerId ∉ post.likes.map Like.user := by
          intro hmem
          obtain ⟨l, hl, hl2⟩ := List.mem_map.mp hmem
          apply hg
          have hlmem : l ∈ post.likes.filter (fun l2 => l2.user == callerId) :=
            List.mem_filter.mpr ⟨hl, by simpa using hl2⟩
          exact List.length_pos.mpr (fun hnil => by rw [hnil] at hlmem; simp at hlmem)
        have hpost := hinv post (findById_found_mem_any hf)
        unfold likeInv at hpost ⊢
        rw [List.map_cons, List.nodup_cons]
        exact ⟨hnotin, hpost⟩
  · cases hf : findById db i with
    | castError => unfold unlikePost; rw [hf]; dsimp only; exact hinv
    | missing => unfold unlikePost; rw [hf]; dsimp only; exact hinv
    | found post =>
      unfold unlikePost
      rw [hf]
      dsimp only
      by_cases hg : ((post.likes.filter (fun l => l.user == callerId)).length == 0) = true
      · rw [if_pos hg]; exact hinv
      · rw [if_neg hg]
        dsimp only
        refine likeInv_updatePost hinv ?_
        have hpost := hinv post (findById_found_mem_any hf)
        unfold likeInv at hpost ⊢
        exact List.Nodup.sublist ((spliceOne_sublist post.likes _).map Like.user) hpost
  · cases hf : findById db i with
    | castError => unfold deleteComment; rw [hf]; dsimp only; exact hinv
    | missing => unfold deleteComment; rw [hf]; dsimp only; exact hinv
    | found post =>
      unfold deleteComment
      rw [hf]
      dsimp only
      cases hc : post.comments.find? (fun c => c.id == cid) with
      | none => dsimp only; exact hinv
      | some comment =>
        dsimp only
        by_cases hu : (comment.user == callerId) = true
        · rw [if_pos hu]
          dsimp only
          refine likeInv_updatePost hinv ?_
          exact hinv post (findById_found_mem_any hf)
        · rw [if_neg hu]; exact hinv
  · by_cases ht : text.isEmpty = true
    · unfold addComment; rw [if_pos ht]; exact hinv
    · unfold addComment
      rw [if_neg ht]
      cases hf : findById db i with
      | castError => dsimp only; exact hinv
      | missing => dsimp only; exact hinv
      | found post =>
        dsimp only
        refine likeInv_updatePost hinv ?_
        exact hinv post (findById_found_mem_any hf)

/-- C10: whenever delete-comment reaches its removal step (the
identified comment exists and the caller authored it), the computed
remove index is a valid position (never -1), exactly one comment is
removed, and the removed comment is authored by the caller. -/
theorem deleteComment_always_removes_a_caller_comment (db : List Post)
    (s callerId cid : String) (post : Post) (comment : Comment)
    (hfind : findById db (.wellFormed s) = .found post)
    (hc : post.comments.find? (fun c => c.id == cid) = some comment)
    (hu : comment.user = callerId) :
    ∃ k : Nat, ∃ hk : k < post.comments.length,
      jsIndexOf (post.comments.map Comment.user) callerId = (k : Int) ∧
      (post.comments.get ⟨k, hk⟩).user = callerId ∧
      deleteComment callerId (.wellFormed s) cid db =
        (.ok "Comment Deleted",
          updatePost db { post with comments := post.comments.eraseIdx k }) ∧
      (post.comments.eraseIdx k).length + 1 = post.comments.length := by
  have hex : ∃ a ∈ post.comments, Comment.user a = callerId :=
    ⟨comment, List.mem_of_find?_eq_some hc, hu⟩
  obtain ⟨k, hk1, hk2, hk3, hk4⟩ :=
    jsIndexOf_spliceOne_of_mem Comment.user callerId post.comments hex
  refine ⟨k, hk3, hk1, hk4, ?_, ?_⟩
  · unfold deleteComment
    rw [hfind]
    dsimp only
    rw [hc]
    dsimp only
    rw [if_pos (by simpa using hu)]
    have hk2e : spliceOne post.comments
        (jsIndexOf (post.comments.map (fun c => c.user)) callerId) =
          post.comments.eraseIdx k := hk2
    rw [hk2e]
  · rw [List.length_eraseIdx_of_lt hk3]
    omega

/-- C1 fails on the code: deleting comment `b` of a post whose comments
are `[a, b]`, both authored by the caller, removes comment `a` (the
caller's first comment), not the identified comment `b`; the surviving
comment sequence is `[b]` where the claim requires `[a]`. -/
theorem deleteComment_removes_wrong_comment :
    deleteComment "u" (.wellFormed "p1") "b" [pDemo] =
      (.ok "Comment Deleted", [{ pDemo with comments := [cmtB] }]) ∧
    cmtA.id = "a" ∧ cmtB.id = "b" ∧ pDemo.comments = [cmtA, cmtB] ∧
    ({ pDemo with comments := [cmtB] } : Post).comments ≠ [cmtA] :=
  ⟨rfl, rfl, rfl, rfl, by decide⟩

/-! ## Witnesses: the theorems applied at concrete inputs -/

/-- Witness for C2 at a store holding one post liked by `u` and `w`. -/
theorem mutations_preserve_like_uniqueness_witness :
    (∀ p ∈ [pLiked], likeInv p) ∧
    ((∀ p1 ∈ (likePost "w" (.wellFormed "p2") [pLiked]).2, likeInv p1) ∧
     (∀ p1 ∈ (unlikePost "w" (.wellFormed "p2") [pLiked]).2, likeInv p1) ∧
     (∀ p1 ∈ (deleteComment "w" (.wellFormed "p2") "a" [pLiked]).2, likeInv p1) ∧
     (∀ p1 ∈ (addComment demoUser "txt" (.wellFormed "p2") "c9" [pLiked]).2,
        likeInv p1)) :=
  ⟨by decide, mutations_preserve_like_uniqueness [pLiked] (.wellFormed "p2")
    "w" "txt" "a" "c9" demoUser (by decide)⟩

/-- Witness for C3: user `w` likes then unlikes `pDemo`. -/
theorem like_then_unlike_restores_likes_witness :
    findById [pDemo] (.wellFormed "p1") = .found pDemo ∧
    likeInv pDemo ∧
    (pDemo.likes.filter (fun l => l.user == "w")).length = 0 ∧
    ((unlikePost "w" (.wellFormed "p1")
        (likePost "w" (.wellFormed "p1") [pDemo]).2).1 = .ok "Unlike Post" ∧
     findById (unlikePost "w" (.wellFormed "p1")
        (likePost "w" (.wellFormed "p1") [pDemo]).2).2 (.wellFormed "p1") =
       .found pDemo) :=
  ⟨by decide, by decide, by decide,
    like_then_unlike_restores_likes [pDemo] "p1" "w" pDemo
      (by decide) (by decide) (by decide)⟩

/-- Witness for C4: user `w` unlikes `pLiked`. -/
theorem unlikePost_not_liked_or_removes_exactly_caller_witness :
    findById [pLiked] (.wellFormed "p2") = .found pLiked ∧
    likeInv pLiked ∧
    (((pLiked.likes.filter (fun l => l.user == "w")).length = 0 →
        unlikePost "w" (.wellFormed "p2") [pLiked] =
          (.error .notYetLiked, [pLiked]) ∧
        ApiError.status .notYetLiked = 400) ∧
     ((pLiked.likes.filter (fun l => l.user == "w")).length ≠ 0 →
        unlikePost "w" (.wellFormed "p2") [pLiked] =
          (.ok "Unlike Post",
            updatePost [pLiked]
              { pLiked with
                likes := pLiked.likes.filter (fun l => !(l.user == "w")) }))) :=
  ⟨by decide, by decide,
    unlikePost_not_liked_or_removes_exactly_caller [pLiked] "p2" "w" pLiked
      (by decide) (by decide)⟩

/-- Witness for C5: user `u` likes `pLiked`, which they already liked. -/
theorem likePost_duplicate_or_prepends_witness :
    findById [pLiked] (.wellFormed "p2") = .found pLiked ∧
    ((0 < (pLiked.likes.filter (fun l => l.user == "u")).length →
        likePost "u" (.wellFormed "p2") [pLiked] =
          (.error .alreadyLiked, [pLiked]) ∧
        ApiError.status .alreadyLiked = 400) ∧
     ((pLiked.likes.filter (fun l => l.user == "u")).length = 0 →
        likePost "u" (.wellFormed "p2") [pLiked] =
          (.ok ({ user := "u" } :: pLiked.likes),
            updatePost [pLiked]
              { pLiked with likes := { user := "u" } :: pLiked.likes }))) :=
  ⟨by decide,
    likePost_duplicate_or_prepends [pLiked] "p2" "u" pLiked (by decide)⟩

/-- Witness for C6: user `v` tries to delete `pDemo`, owned by `u`. -/
theorem deletePost_unauthorized_unchanged_witness :
    findById [pDemo] (.wellFormed "p1") = .found pDemo ∧
    pDemo.user ≠ "v" ∧
    (deletePost "v" (.wellFormed "p1") [pDemo] =
        (.error .notAuthorized, [pDemo]) ∧
     ApiError.status .notAuthorized = 401) :=
  ⟨by decide, by decide,
    deletePost_unauthorized_unchanged [pDemo] "p1" "v" pDemo
      (by decide) (by decide)⟩

/-- Witness for C7 at the empty text. -/
theorem createPost_empty_text_rejected_witness :
    ("" = "" →
      createPost demoUser "" "n1" 3 [] = (.error .validationError, []) ∧
      ApiError.status .validationError = 400) ∧
    ("" ≠ "" → ∃ p : Post,
      createPost demoUser "" "n1" 3 [] = (.ok p, p :: []) ∧
      p.user = demoUser.id ∧ p.name = demoUser.name ∧
      p.avatar = demoUser.avatar ∧ p.text = "" ∧ p.likes = [] ∧
      p.comments = []) :=
  createPost_empty_text_rejected demoUser "" "n1" 3 []

/-- Witness for C8 at the malformed id `zzz`. -/
theorem malformed_id_yields_not_found_witness :
    ("yo" : String) ≠ "" ∧
    (getPost [] (.malformed "zzz") = (.error .notFound, []) ∧
     deletePost "u" (.malformed "zzz") [] = (.error .notFound, []) ∧
     likePost "u" (.malformed "zzz") [] = (.error .notFound, []) ∧
     unlikePost "u" (.malformed "zzz") [] = (.error .notFound, []) ∧
     addComment demoUser "yo" (.malformed "zzz") "n" [] =
       (.error .notFound, []) ∧
     deleteComment "u" (.malformed "zzz") "c" [] = (.error .notFound, []) ∧
     ApiError.status .notFound = 400 ∧ ApiError.status .notFound ≠ 500) :=
  ⟨by decide,
    malformed_id_yields_not_found [] "zzz" "u" "yo" "c" "n" demoUser (by decide)⟩

/-- Witness for C10: deleting comment `b` of `pDemo` as user `u`. -/
theorem deleteComment_always_removes_a_caller_comment_witness :
    findById [pDemo] (.wellFormed "p1") = .found pDemo ∧
    pDemo.comments.find? (fun c => c.id == "b") = some cmtB ∧
    cmtB.user = "u" ∧
    (∃ k : Nat, ∃ hk : k < pDemo.comments.length,
      jsIndexOf (pDemo.comments.map Comment.user) "u" = (k : Int) ∧
      (pDemo.comments.get ⟨k, hk⟩).user = "u" ∧
      deleteComment "u" (.wellFormed "p1") "b" [pDemo] =
        (.ok "Comment Deleted",
          updatePost [pDemo] { pDemo with comments := pDemo.comments.eraseIdx k }) ∧
      (pDemo.comments.eraseIdx k).length + 1 = pDemo.comments.length) :=
  ⟨by decide, by decide, rfl,
    deleteComment_always_removes_a_caller_comment [pDemo] "p1" "u" "b" pDemo
      cmtB (by decide) (by decide) rfl⟩
